import Mathlib

/-!
Shallow embedding of `ventilo` (3kwa/ventilo), a WebSocket/SSE fanout relay
written in Go, together with proofs about the claims of its specification.

The embedded state is the `Server` struct of `ventilo.go`:

  type Server struct {
      mutex     sync.Mutex
      listeners map[string][]chan string
      messages  map[string]int
  }

Go maps are modelled as association lists with in-place update (`mapSet`)
and zero-value-on-missing-key reads (`mapGet`), which matches Go map
semantics (`m[k]` on a missing key yields the zero value and does not
insert; `m[k] = v` inserts or updates).  Subscriber queues (`chan string`
values, compared by reference in the source) are modelled as natural-number
identities; freshness of `make(chan string)` is modelled by an allocation
counter in `World`.
-/

set_option autoImplicit false

namespace Ventilo

/-- Go map read: `m[k]` returns the value of the first (unique) entry with
key `k`, or the zero value `d` when the key is absent. -/
def mapGet {α : Type} : List (String × α) → String → α → α
  | [], _, d => d
  | (k', v) :: rest, k, d => if k' = k then v else mapGet rest k d

/-- Go map write: `m[k] = v` updates the entry in place when the key is
present and appends a new entry otherwise. -/
def mapSet {α : Type} : List (String × α) → String → α → List (String × α)
  | [], k, v => [(k, v)]
  | (k', v') :: rest, k, v =>
      if k' = k then (k, v) :: rest else (k', v') :: mapSet rest k v

/-- Whether key `k` is present in the map. -/
def mapHasKey {α : Type} : List (String × α) → String → Bool
  | [], _ => false
  | (k', _) :: rest, k => if k' = k then true else mapHasKey rest k

/-- The `Server` struct of `ventilo.go` minus the mutex (lock discipline is
modelled separately below): `listeners` maps a channel name to the list of
subscriber queues registered on it, `messages` counts broadcasts per
channel. -/
structure Server where
  listeners : List (String × List Nat)
  messages : List (String × Nat)
  deriving DecidableEq, Repr

/-- Constructor `newServer()`: both maps start empty. -/
def newServer : Server := ⟨[], []⟩

/-- Function `server.listen(name)` (registry effect): appends the freshly made queue
`q` to the channel's subscriber list, creating the entry if absent
(`server.listeners[name] = append(server.listeners[name], channel)`). -/
def Server.listen (s : Server) (name : String) (q : Nat) : Server :=
  { s with listeners := mapSet s.listeners name (mapGet s.listeners name [] ++ [q]) }

/-- The removal loop of `server.hangup`: scans the slice and deletes the
first element identical to `q` (`if list[i] == channel { list =
append(list[:i], list[i+1:]...); break }`); leaves the list unchanged when
no element matches. -/
def removeFirst : List Nat → Nat → List Nat
  | [], _ => []
  | x :: xs, q => if x = q then xs else x :: removeFirst xs q

/-- The registry-removal part of `server.hangup(name, channel)`: reads the
channel's list, removes the first queue identical to `q`, and writes the
list back (`server.listeners[name] = list`, which creates the key when it
was absent). -/
def Server.hangupReg (s : Server) (name : String) (q : Nat) : Server :=
  { s with listeners := mapSet s.listeners name (removeFirst (mapGet s.listeners name []) q) }

/-- The snapshot taken by `server.broadcast` under the lock:
`list := append([]chan string{}, server.listeners[name]...)`. -/
def Server.snapshot (s : Server) (name : String) : List Nat :=
  mapGet s.listeners name []

/-- The registry effect of `server.broadcast(name, message)`:
`server.messages[name]++` (zero-value read plus write, so the counter entry
is created on first broadcast). -/
def Server.broadcastReg (s : Server) (name : String) : Server :=
  { s with messages := mapSet s.messages name (mapGet s.messages name 0 + 1) }

/-- The delivery loop of `server.broadcast`: one `select` with a `default`
branch per queue of the snapshot, in snapshot order.  `ready q = true`
models a consumer currently blocked on a receive from `q` (the rendezvous
send succeeds); otherwise the `default` branch runs and the message is
dropped for that queue.  The result pairs each queue with whether the
handoff succeeded. -/
def deliver (snap : List Nat) (ready : Nat → Bool) : List (Nat × Bool) :=
  snap.map (fun q => (q, ready q))

/-- Full `server.broadcast(name, message)`: snapshot + counter increment in
one critical section, then the non-blocking delivery loop outside the
lock.  Returns the new registry state and the per-queue delivery
outcomes.  No error is produced in any case. -/
def Server.broadcast (s : Server) (name : String) (ready : Nat → Bool) :
    Server × List (Nat × Bool) :=
  (s.broadcastReg name, deliver (s.snapshot name) ready)

/-- The `Topic` struct serialized by the `/channels/` endpoint. -/
structure Topic where
  name : String
  subscriberTotal : Nat
  messageTotal : Nat
  deriving DecidableEq, Repr

/-- The `/channels/` handler body: iterates over the keys of
`server.listeners` (only!) and records
`Topic{name, len(server.listeners[name]), server.messages[name]}`. -/
def Server.channelsList (s : Server) : List Topic :=
  s.listeners.map (fun p => ⟨p.1, p.2.length, mapGet s.messages p.1 0⟩)

/-! ### Operational model

Freshness of `make(chan string)` is captured by an allocation counter:
every `listen` registers the next unused queue identity. -/

/-- Server state plus the queue-allocation counter. -/
structure World where
  server : Server
  nextId : Nat
  deriving DecidableEq, Repr

/-- The registry operations a run of the program can perform. -/
inductive Op where
  | subscribe (name : String)
  | hangup (name : String) (q : Nat)
  | broadcast (name : String)
  deriving DecidableEq, Repr

/-- One operation applied to the world.  `subscribe` registers a fresh
queue; `hangup` deregisters; `broadcast` bumps the per-channel counter
(its delivery part does not touch the registry). -/
def stepOp (w : World) : Op → World
  | .subscribe name => ⟨w.server.listen name w.nextId, w.nextId + 1⟩
  | .hangup name q => ⟨w.server.hangupReg name q, w.nextId⟩
  | .broadcast name => ⟨w.server.broadcastReg name, w.nextId⟩

/-- Run a sequence of operations from the freshly constructed server. -/
def runOps (ops : List Op) : World :=
  ops.foldl stepOp ⟨newServer, 0⟩

/-- Whether an operation is a broadcast on channel `c`. -/
def isBroadcastTo (c : String) : Op → Bool
  | .broadcast n => n = c
  | _ => false

/-! ### Map lemmas -/

theorem mapGet_mapSet_self {α : Type} (m : List (String × α)) (k : String) (v d : α) :
    mapGet (mapSet m k v) k d = v := by
  induction m with
  | nil => simp [mapGet, mapSet]
  | cons p rest ih =>
      obtain ⟨k', v'⟩ := p
      by_cases h : k' = k <;> simp [mapGet, mapSet, h, ih]

theorem mapGet_mapSet_ne {α : Type} (m : List (String × α)) (k k' : String) (v d : α)
    (h : k' ≠ k) : mapGet (mapSet m k v) k' d = mapGet m k' d := by
  induction m with
  | nil => simp [mapGet, mapSet, Ne.symm h]
  | cons p rest ih =>
      obtain ⟨k₀, v₀⟩ := p
      by_cases h₀ : k₀ = k
      · subst h₀
        simp [mapGet, mapSet, Ne.symm h]
      · by_cases h₁ : k₀ = k' <;> simp [mapGet, mapSet, h₀, h₁, h, ih]

theorem mapHasKey_mapSet {α : Type} (m : List (String × α)) (k k' : String) (v : α) :
    mapHasKey (mapSet m k v) k' = true ↔ (k' = k ∨ mapHasKey m k' = true) := by
  induction m with
  | nil =>
      by_cases h : k = k'
      · simp [mapHasKey, mapSet, h]
      · simp [mapHasKey, mapSet, h, Ne.symm h]
  | cons p rest ih =>
      obtain ⟨k₀, v₀⟩ := p
      by_cases h₀ : k₀ = k
      · subst h₀
        by_cases h₁ : k₀ = k'
        · simp [mapHasKey, mapSet, h₁]
        · simp [mapHasKey, mapSet, h₁, Ne.symm h₁]
      · by_cases h₁ : k₀ = k'
        · subst h₁
          simp [mapHasKey, mapSet, h₀]
        · simp [mapHasKey, mapSet, h₀, h₁, ih]

theorem removeFirst_of_not_mem (l : List Nat) (q : Nat) (h : q ∉ l) :
    removeFirst l q = l := by
  induction l with
  | nil => rfl
  | cons x xs ih =>
      rw [List.mem_cons, not_or] at h
      simp [removeFirst, Ne.symm h.1, ih h.2]

theorem removeFirst_append_cons (l₁ l₂ : List Nat) (q : Nat) (h : q ∉ l₁) :
    removeFirst (l₁ ++ q :: l₂) q = l₁ ++ l₂ := by
  induction l₁ with
  | nil => simp [removeFirst]
  | cons x xs ih =>
      rw [List.mem_cons, not_or] at h
      simp [removeFirst, Ne.symm h.1, ih h.2]

/-- Either `q` does not occur and removal is the identity, or the list
splits at the first occurrence of `q` and exactly that occurrence is
removed. -/
theorem removeFirst_spec (l : List Nat) (q : Nat) :
    (q ∉ l ∧ removeFirst l q = l) ∨
      (∃ l₁ l₂, l = l₁ ++ q :: l₂ ∧ q ∉ l₁ ∧ removeFirst l q = l₁ ++ l₂) := by
  induction l with
  | nil => exact Or.inl ⟨by simp, rfl⟩
  | cons x xs ih =>
      by_cases hx : x = q
      · subst hx
        exact Or.inr ⟨[], xs, by simp, by simp, by simp [removeFirst]⟩
      · rcases ih with ⟨hnm, heq⟩ | ⟨l₁, l₂, hsp, hnm, heq⟩
        · exact Or.inl ⟨by simp [hnm, Ne.symm hx], by simp [removeFirst, hx, heq]⟩
        · exact Or.inr ⟨x :: l₁, l₂, by simp [hsp],
            by simp [hnm, Ne.symm hx], by simp [removeFirst, hx, heq]⟩

/-! ### Counter tracking (claim C1) -/

theorem messages_foldl (ops : List Op) (w : World) (c : String) :
    mapGet ((ops.foldl stepOp w).server.messages) c 0 =
      mapGet w.server.messages c 0 + (ops.filter (isBroadcastTo c)).length := by
  induction ops generalizing w with
  | nil => simp
  | cons op rest ih =>
      cases op with
      | subscribe n =>
          rw [List.foldl_cons, ih]
          simp [stepOp, Server.listen, isBroadcastTo]
      | hangup n q =>
          rw [List.foldl_cons, ih]
          simp [stepOp, Server.hangupReg, isBroadcastTo]
      | broadcast n =>
          rw [List.foldl_cons, ih]
          by_cases hn : n = c
          · subst hn
            simp only [stepOp, Server.broadcastReg]
            rw [mapGet_mapSet_self]
            simp [isBroadcastTo]
            omega
          · simp only [stepOp, Server.broadcastReg]
            rw [mapGet_mapSet_ne _ _ _ _ _ (Ne.symm hn)]
            simp [isBroadcastTo, hn]

/-! ### Queue-uniqueness invariant (claim C8) -/

/-- Total number of occurrences of queue `q` across all subscriber lists of
the registry. -/
def countQ (s : Server) (q : Nat) : Nat :=
  (s.listeners.map (fun p => p.2.count q)).sum

theorem countQ_mapSet (m : List (String × List Nat)) (name : String)
    (v : List Nat) (q : Nat) :
    ((mapSet m name v).map (fun p => p.2.count q)).sum + (mapGet m name []).count q =
      (m.map (fun p => p.2.count q)).sum + v.count q := by
  induction m with
  | nil => simp [mapSet, mapGet]
  | cons p rest ih =>
      obtain ⟨k₀, w₀⟩ := p
      by_cases h₀ : k₀ = name
      · subst h₀
        simp [mapSet, mapGet]
        omega
      · simp only [mapSet, if_neg h₀, mapGet, if_neg h₀, List.map_cons, List.sum_cons]
        omega

theorem count_removeFirst_le (l : List Nat) (q₀ q : Nat) :
    (removeFirst l q₀).count q ≤ l.count q := by
  induction l with
  | nil => simp [removeFirst]
  | cons x xs ih =>
      by_cases hx : x = q₀
      · simp only [removeFirst, if_pos hx, List.count_cons]
        omega
      · simp only [removeFirst, if_neg hx, List.count_cons]
        omega

/-- Invariant carried along runs: every queue identity occurs at most once
in the whole registry, and identities not yet allocated occur nowhere. -/
def qinv (w : World) : Prop :=
  (∀ q, countQ w.server q ≤ 1) ∧ ∀ q, w.nextId ≤ q → countQ w.server q = 0

theorem qinv_step (w : World) (op : Op) (h : qinv w) : qinv (stepOp w op) := by
  obtain ⟨h₁, h₂⟩ := h
  cases op with
  | subscribe n =>
      have key : ∀ q, countQ (w.server.listen n w.nextId) q +
          (mapGet w.server.listeners n []).count q =
          countQ w.server q +
            ((mapGet w.server.listeners n []).count q + List.count q [w.nextId]) := by
        intro q
        have hk := countQ_mapSet w.server.listeners n
          (mapGet w.server.listeners n [] ++ [w.nextId]) q
        rw [List.count_append] at hk
        exact hk
      refine ⟨fun q => ?_, fun q hq => ?_⟩
      · show countQ (w.server.listen n w.nextId) q ≤ 1
        have hk := key q
        by_cases hq : q = w.nextId
        · have h0 := h₂ q (le_of_eq hq.symm)
          have hone : List.count q [w.nextId] = 1 := by simp [hq]
          omega
        · have hzero : List.count q [w.nextId] = 0 := by simp [hq]
          have := h₁ q
          omega
      · show countQ (w.server.listen n w.nextId) q = 0
        have hk := key q
        have hq' : w.nextId + 1 ≤ q := hq
        have h0 := h₂ q (by omega)
        have hzero : List.count q [w.nextId] = 0 := by
          have : q ≠ w.nextId := by omega
          simp [this]
        omega
  | hangup n q₀ =>
      have key : ∀ q, countQ (w.server.hangupReg n q₀) q +
          (mapGet w.server.listeners n []).count q =
          countQ w.server q + (removeFirst (mapGet w.server.listeners n []) q₀).count q :=
        fun q => countQ_mapSet w.server.listeners n _ q
      refine ⟨fun q => ?_, fun q hq => ?_⟩
      · show countQ (w.server.hangupReg n q₀) q ≤ 1
        have hk := key q
        have hle := count_removeFirst_le (mapGet w.server.listeners n []) q₀ q
        have := h₁ q
        omega
      · show countQ (w.server.hangupReg n q₀) q = 0
        have hk := key q
        have hle := count_removeFirst_le (mapGet w.server.listeners n []) q₀ q
        have := h₂ q hq
        omega
  | broadcast n =>
      exact ⟨fun q => h₁ q, fun q hq => h₂ q hq⟩

theorem qinv_foldl (ops : List Op) (w : World) (h : qinv w) :
    qinv (ops.foldl stepOp w) := by
  induction ops generalizing w with
  | nil => exact h
  | cons op rest ih => exact ih (stepOp w op) (qinv_step w op h)

theorem qinv_runOps (ops : List Op) : qinv (runOps ops) := by
  refine qinv_foldl ops ⟨newServer, 0⟩ ⟨fun q => ?_, fun q _ => ?_⟩ <;>
    simp [countQ, newServer]

theorem countP_mem_le_sum (L : List (String × List Nat)) (q : Nat) :
    L.countP (fun p => decide (q ∈ p.2)) ≤ (L.map (fun p => p.2.count q)).sum := by
  induction L with
  | nil => simp
  | cons p rest ih =>
      rw [List.countP_cons]
      simp only [List.map_cons, List.sum_cons]
      by_cases hq : q ∈ p.2
      · have : 0 < p.2.count q := List.count_pos_iff.mpr hq
        simp [hq]
        omega
      · simp [hq]
        omega

theorem count_mem_le_sum (L : List (String × List Nat)) (q : Nat) (p : String × List Nat)
    (hp : p ∈ L) : p.2.count q ≤ (L.map (fun p => p.2.count q)).sum := by
  induction L with
  | nil => cases hp
  | cons x rest ih =>
      rcases List.mem_cons.mp hp with h | h
      · subst h
        simp only [List.map_cons, List.sum_cons]
        omega
      · have := ih h
        simp only [List.map_cons, List.sum_cons]
        omega

/-! ### HTTP routing (`ServeHTTP`) -/

/-- Model of `strings.HasPrefix` on the underlying character lists. -/
def listHasPre : List Char → List Char → Bool
  | [], _ => true
  | _ :: _, [] => false
  | a :: as, b :: bs => if a = b then listHasPre as bs else false

/-- Model of `strings.HasPrefix(s, pre)`. -/
def hasPre (pre s : String) : Bool := listHasPre pre.data s.data

/-- Model of `strings.TrimPrefix(s, pre)`: drops the prefix when present, returns
`s` unchanged otherwise. -/
def trimPre (pre s : String) : String :=
  if hasPre pre s then String.mk (s.data.drop pre.data.length) else s

/-- The parts of an incoming request that `ServeHTTP` inspects: the URL
path, the `Accept` header value (`request.Header.Get("Accept")`), and the
`message` form value. -/
structure Request where
  path : String
  accept : String
  message : String

/-- What `ServeHTTP` decides to do with a request. -/
inductive Action where
  | notFound
  | channelsPage
  | broadcastTo (name message : String)
  | sseListen (name : String)
  | wsListen (name : String)
  deriving DecidableEq, Repr

/-- The dispatch logic of `ServeHTTP`: first the exact `/channels/` match,
then the `/broadcast/` prefix, then the `/listen/` prefix — where the
`Accept: text/event-stream` header selects the SSE handler and anything
else goes to the WebSocket handler — and `404` otherwise.  The request
method is never inspected. -/
def route (r : Request) : Action :=
  if r.path = "/channels/" then .channelsPage
  else if hasPre "/broadcast/" r.path then
    .broadcastTo (trimPre "/broadcast/" r.path) r.message
  else if hasPre "/listen/" r.path then
    if r.accept = "text/event-stream" then .sseListen (trimPre "/listen/" r.path)
    else .wsListen (trimPre "/listen/" r.path)
  else .notFound

/-! ### SSE handler (`handleSSE`) -/

/-- SSE framing of one delivered message: `fmt.Fprintf(writer, "data: %s\n\n", message)`. -/
def sseDataFrame (m : String) : String := "data: " ++ m ++ "\n\n"

/-- Keep-alive frame sent on each ticker tick: `fmt.Fprintf(writer, "event: ping\n")`. -/
def ssePingFrame : String := "event: ping\n"

/-- Initial frame sent when the SSE connection is established. -/
def sseConnectedFrame : String := "event: connected\n"

/-- Interval of the keep-alive ticker: `time.NewTicker(15 * time.Second)`. -/
def sseTickerSeconds : Nat := 15

/-- Events observed by the `select` loop of `handleSSE`: a message pulled
from the subscriber queue, a ticker tick, or the client disconnecting. -/
inductive SseEv where
  | msg (m : String)
  | tick
  | disconnect

/-- The `select` loop of `handleSSE` as a function from the event trace to
the frames written to the wire: messages are framed with `sseDataFrame`,
ticks emit `ssePingFrame`, disconnection ends the loop. -/
def sseLoop : List SseEv → List String
  | [] => []
  | .msg m :: r => sseDataFrame m :: sseLoop r
  | .tick :: r => ssePingFrame :: sseLoop r
  | .disconnect :: _ => []

/-! ### WebSocket handler entry (`handleWebSocket`) -/

/-- The prefix of `handleWebSocket` up to registration: the upgrade is
attempted first; on failure the handler logs and returns before
`server.listen` runs, so no queue is created or registered.  On success
the fresh queue is registered.  The second component is the queue the
handler went on to own, if any. -/
def handleWebSocketStart (s : Server) (name : String) (upgradeOk : Bool) (fresh : Nat) :
    Server × Option Nat :=
  if upgradeOk then (s.listen name fresh, some fresh) else (s, none)

/-! ### Drain task spawned by `hangup` -/

/-- Events observed by the drain goroutine's `select`: a send received on
the deregistered queue, or the `time.After(1 * time.Minute)` timer
firing. -/
inductive DrainEv where
  | recv
  | timerFired

/-- The drain loop over its event trace: receives are accepted and
discarded, the timer firing makes the loop return; nothing after the
first timer event is processed.  `true` means the goroutine has
terminated by the end of the trace. -/
def drainStopped : List DrainEv → Bool
  | [] => false
  | .recv :: r => drainStopped r
  | .timerFired :: _ => true

/-- Number of sends the drain loop accepts and discards before it stops. -/
def drainDiscards : List DrainEv → Nat
  | [] => 0
  | .recv :: r => 1 + drainDiscards r
  | .timerFired :: _ => 0

/-- Length of the drain grace window, from `time.After(1 * time.Minute)`. -/
def drainGraceSeconds : Nat := 60

/-! ### Lock discipline

Each registry-touching code path is abstracted to its sequence of mutex
operations and registry accesses, in source order.  `accessLockStates`
pairs every access with whether `server.mutex` is held at that point. -/

inductive LockStep where
  | lock
  | unlock
  | readListeners
  | writeListeners
  | readMessages
  | writeMessages
  deriving DecidableEq, Repr

/-- The lock state at each registry access of a step sequence, given the
initial lock state. -/
def accessLockStates : List LockStep → Bool → List Bool
  | [], _ => []
  | .lock :: r, _ => accessLockStates r true
  | .unlock :: r, _ => accessLockStates r false
  | .readListeners :: r, held => held :: accessLockStates r held
  | .writeListeners :: r, held => held :: accessLockStates r held
  | .readMessages :: r, held => held :: accessLockStates r held
  | .writeMessages :: r, held => held :: accessLockStates r held

/-- Whether every registry access of the sequence happens under the lock
(starting unlocked, as every handler does). -/
def allAccessesLocked (steps : List LockStep) : Bool :=
  (accessLockStates steps false).all id

/-- Steps of `server.listen`: `mutex.Lock()`; read-modify-write of
`server.listeners[name]`; `mutex.Unlock()`. -/
def listenSteps : List LockStep :=
  [.lock, .readListeners, .writeListeners, .unlock]

/-- Registry part of `server.hangup`: `mutex.Lock()`;
`list := server.listeners[name]`; `server.listeners[name] = list`;
`mutex.Unlock()` (the removal loop works on the local slice). -/
def hangupSteps : List LockStep :=
  [.lock, .readListeners, .writeListeners, .unlock]

/-- Steps of `server.broadcast`: `mutex.Lock()`; snapshot copy of
`server.listeners[name]`; `server.messages[name]++` (read + write);
`mutex.Unlock()`; the delivery loop touches only the copied slice. -/
def broadcastSteps : List LockStep :=
  [.lock, .readListeners, .readMessages, .writeMessages, .unlock]

/-- The `/channels/` case of `ServeHTTP`: iterates
`for name := range server.listeners`, reading `server.listeners[name]`
and `server.messages[name]` for each entry — with no `mutex.Lock()`
anywhere in that case. -/
def channelsHandlerSteps : List LockStep :=
  [.readListeners, .readListeners, .readMessages]

/-! ### The `/channels/` scenario of claim C7 -/

/-- The history of claim C7: one broadcast to `room1` with no subscribers;
two subscribers then one broadcast on `room2`; a subscribe, a disconnect
(hangup of queue 2, the queue that subscribe allocated) and one broadcast
on `room3`. -/
def scenarioOps : List Op :=
  [.broadcast "room1", .subscribe "room2", .subscribe "room2", .broadcast "room2",
   .subscribe "room3", .hangup "room3" 2, .broadcast "room3"]

/-! ### Routing helper lemmas -/

theorem listHasPre_cons (a : Char) (p s : List Char)
    (h : listHasPre (a :: p) s = true) : ∃ t, s = a :: t ∧ listHasPre p t = true := by
  cases s with
  | nil => exact absurd h (by simp [listHasPre])
  | cons b bs =>
      by_cases hab : a = b
      · subst hab
        refine ⟨bs, rfl, ?_⟩
        simpa [listHasPre] using h
      · exact absurd h (by simp [listHasPre, hab])

theorem hasPre_listen_shape (s : String) (h : hasPre "/listen/" s = true) :
    ∃ t, s.data = '/' :: 'l' :: t := by
  have h0 : listHasPre ('/' :: 'l' :: "isten/".data) s.data = true := h
  obtain ⟨t₁, ht₁, h₁⟩ := listHasPre_cons _ _ _ h0
  obtain ⟨t₂, ht₂, _⟩ := listHasPre_cons _ _ _ h₁
  exact ⟨t₂, by rw [ht₁, ht₂]⟩

theorem hasPre_listen_not_channels (s : String) (h : hasPre "/listen/" s = true) :
    s ≠ "/channels/" := by
  intro he
  rw [he] at h
  exact absurd h (by decide)

theorem hasPre_listen_not_broadcast (s : String) (h : hasPre "/listen/" s = true) :
    hasPre "/broadcast/" s = false := by
  obtain ⟨t, ht⟩ := hasPre_listen_shape s h
  by_contra hb
  rw [Bool.not_eq_false] at hb
  have h0 : listHasPre ('/' :: 'b' :: "roadcast/".data) s.data = true := hb
  obtain ⟨t₁, ht₁, h₁⟩ := listHasPre_cons _ _ _ h0
  obtain ⟨t₂, ht₂, _⟩ := listHasPre_cons _ _ _ h₁
  rw [ht₁, ht₂] at ht
  injection ht with _ ht'
  injection ht' with hbl _
  exact absurd hbl (by decide)

/-! ### Drain helper lemmas -/

theorem drainStopped_replicate (k : Nat) (post : List DrainEv) :
    drainStopped (List.replicate k DrainEv.recv ++ DrainEv.timerFired :: post) = true := by
  induction k with
  | zero => simp [drainStopped]
  | succ n ih => simpa [List.replicate_succ, drainStopped] using ih

theorem drainDiscards_replicate (k : Nat) (post : List DrainEv) :
    drainDiscards (List.replicate k DrainEv.recv ++ DrainEv.timerFired :: post) = k := by
  induction k with
  | zero => simp [drainDiscards]
  | succ n ih =>
      simp [List.replicate_succ, drainDiscards, ih]
      omega

/-! ## Claim theorems -/

/-- Claim C1: after any operation sequence, the message counter of channel
`c` equals exactly the number of broadcast calls on `c` in that sequence —
independent of how many subscribers were registered at each call (the
sequence may subscribe and hang up arbitrarily) — and a single broadcast
call increments the counter of its channel by exactly one. -/
theorem c1_message_counter_exact (ops : List Op) (c : String) (s : Server) :
    mapGet (runOps ops).server.messages c 0 = (ops.filter (isBroadcastTo c)).length ∧
      mapGet (s.broadcastReg c).messages c 0 = mapGet s.messages c 0 + 1 := by
  constructor
  · have h := messages_foldl ops ⟨newServer, 0⟩ c
    simpa [runOps, newServer, mapGet] using h
  · exact mapGet_mapSet_self s.messages c _ 0

/-- Claim C2: the delivery loop of `broadcast` makes exactly one non-blocking
handoff attempt per subscriber of the snapshot, in snapshot order; a
subscriber whose consumer is not ready to receive gets the message dropped
(`delivered = false`) with no retry; and the resulting registry state — and
hence everything the publisher observes — is independent of which
subscribers were ready, so no delivery failure surfaces to the publisher. -/
theorem c2_broadcast_best_effort (s : Server) (name : String) (ready : Nat → Bool) :
    ((s.broadcast name ready).2.map Prod.fst = s.snapshot name) ∧
      (∀ q b, (q, b) ∈ (s.broadcast name ready).2 → b = ready q) ∧
      (s.broadcast name ready).1 = s.broadcastReg name := by
  refine ⟨?_, ?_, rfl⟩
  · have key : ∀ l : List Nat, (l.map (fun q => (q, ready q))).map Prod.fst = l := by
      intro l
      induction l with
      | nil => rfl
      | cons x xs ih => simp [ih]
    exact key (s.snapshot name)
  · intro q b hb
    simp only [Server.broadcast, deliver, List.mem_map] at hb
    obtain ⟨a, _, ha⟩ := hb
    injection ha with h₁ h₂
    subst h₁
    exact h₂.symm

/-- Claim C3: a request whose path has the `/listen/` prefix is dispatched by
the `Accept` header: exactly the value `text/event-stream` selects the SSE
handler, anything else the WebSocket upgrade; the SSE loop frames every
delivered message as `data: <message>` followed by a blank line and emits a
keep-alive ping frame on each tick of its 15-second ticker. -/
theorem c3_listen_dispatch (r : Request) (h : hasPre "/listen/" r.path = true) :
    (route r = if r.accept = "text/event-stream"
        then Action.sseListen (trimPre "/listen/" r.path)
        else Action.wsListen (trimPre "/listen/" r.path)) ∧
      (∀ m evs, sseLoop (SseEv.msg m :: evs) = ("data: " ++ m ++ "\n\n") :: sseLoop evs) ∧
      (∀ evs, sseLoop (SseEv.tick :: evs) = ssePingFrame :: sseLoop evs) ∧
      sseTickerSeconds = 15 := by
  refine ⟨?_, fun m evs => rfl, fun evs => rfl, rfl⟩
  have hc := hasPre_listen_not_channels r.path h
  have hb := hasPre_listen_not_broadcast r.path h
  rw [route, if_neg hc, if_neg (by simp [hb]), if_pos h]

/-- Witness for C3 at the concrete request `GET /listen/room` with
`Accept: text/event-stream`. -/
theorem c3_listen_dispatch_witness :
    hasPre "/listen/" "/listen/room" = true ∧
      ((route ⟨"/listen/room", "text/event-stream", ""⟩ =
          if ("text/event-stream" : String) = "text/event-stream"
          then Action.sseListen (trimPre "/listen/" "/listen/room")
          else Action.wsListen (trimPre "/listen/" "/listen/room")) ∧
        (∀ m evs, sseLoop (SseEv.msg m :: evs) = ("data: " ++ m ++ "\n\n") :: sseLoop evs) ∧
        (∀ evs, sseLoop (SseEv.tick :: evs) = ssePingFrame :: sseLoop evs) ∧
        sseTickerSeconds = 15) :=
  ⟨by decide, c3_listen_dispatch ⟨"/listen/room", "text/event-stream", ""⟩ (by decide)⟩

/-- Claim C4: deregistration (the registry part of `hangup`) leaves the
message counters untouched; channel `name` gets exactly
`removeFirst list q` as its new list while every other channel's list is
unchanged; `removeFirst` removes precisely the first occurrence of `q` by
identity and is the identity when `q` is absent (so a second hangup of the
same queue is a no-op); and no registry key is ever deleted — every
previously known channel (and `name` itself) still has an entry
afterwards, preserving its message count. -/
theorem c4_deregister_spec (s : Server) (name : String) (q : Nat) :
    (s.hangupReg name q).messages = s.messages ∧
      (∀ n, mapGet (s.hangupReg name q).listeners n [] =
        if n = name then removeFirst (mapGet s.listeners name []) q
        else mapGet s.listeners n []) ∧
      ((q ∉ mapGet s.listeners name [] ∧
          removeFirst (mapGet s.listeners name []) q = mapGet s.listeners name []) ∨
        (∃ l₁ l₂, mapGet s.listeners name [] = l₁ ++ q :: l₂ ∧ q ∉ l₁ ∧
          removeFirst (mapGet s.listeners name []) q = l₁ ++ l₂)) ∧
      (∀ n, mapHasKey (s.hangupReg name q).listeners n = true ↔
        (n = name ∨ mapHasKey s.listeners n = true)) := by
  refine ⟨rfl, fun n => ?_, removeFirst_spec _ q, fun n => mapHasKey_mapSet _ _ _ _⟩
  by_cases hn : n = name
  · subst hn
    simp only [Server.hangupReg, if_pos rfl]
    exact mapGet_mapSet_self s.listeners n _ []
  · simp only [Server.hangupReg, if_neg hn]
    exact mapGet_mapSet_ne s.listeners name n _ [] hn

/-- Claim C5: the drain goroutine spawned by `hangup` accepts and discards
exactly the sends that arrive before its `time.After(1 * time.Minute)`
timer fires (a 60-second grace window), terminates when the timer fires —
in particular on the trace with no sends at all — and processes nothing
after that point.  (`time.After` firing is modelled as the `timerFired`
event, which the Go runtime guarantees to deliver.) -/
theorem c5_drain_bounded (k : Nat) (post : List DrainEv) :
    drainStopped (List.replicate k DrainEv.recv ++ DrainEv.timerFired :: post) = true ∧
      drainDiscards (List.replicate k DrainEv.recv ++ DrainEv.timerFired :: post) = k ∧
      drainStopped [DrainEv.timerFired] = true ∧
      drainGraceSeconds = 60 :=
  ⟨drainStopped_replicate k post, drainDiscards_replicate k post, rfl, rfl⟩

/-- Claim C6, which the code contradicts: the mutating paths — subscriber-list
append in `listen`, removal in `hangup`, snapshot-plus-counter-increment in
`broadcast` — do run entirely under `server.mutex`, but the introspection
snapshot taken by the `/channels/` case of `ServeHTTP` reads
`server.listeners` and `server.messages` with the mutex *not* held, so the
claim fails for the introspection read. -/
theorem c6_lock_discipline :
    allAccessesLocked listenSteps = true ∧
      allAccessesLocked hangupSteps = true ∧
      allAccessesLocked broadcastSteps = true ∧
      allAccessesLocked channelsHandlerSteps = false := by decide

/-- Claim C7 counterexample: after the claimed history, the `/channels/`
output contains *no* entry named `room1`, although `room1`'s message
counter is 1 — `broadcast` never creates a `listeners` entry, and
`/channels/` iterates over `listeners` keys only.  This refutes the claim
that the JSON array contains one entry for each of `room1`, `room2`,
`room3`. -/
theorem c7_channels_counterexample :
    (∀ t ∈ (runOps scenarioOps).server.channelsList, t.name ≠ "room1") ∧
      mapGet (runOps scenarioOps).server.messages "room1" 0 = 1 := by decide

/-- Claim C7 amended: after the history, `/channels/` contains exactly two
entries — `room2` with 2 subscribers and 1 message and `room3` with 0
subscribers and 1 message — and no entry for `room1`, whose message counter
nevertheless is 1 (it was broadcast to but never subscribed to, and only
subscribed channels appear in the listing). -/
theorem c7_channels_scenario_amended :
    Topic.mk "room2" 2 1 ∈ (runOps scenarioOps).server.channelsList ∧
      Topic.mk "room3" 0 1 ∈ (runOps scenarioOps).server.channelsList ∧
      (runOps scenarioOps).server.channelsList.length = 2 ∧
      (∀ t ∈ (runOps scenarioOps).server.channelsList, t.name ≠ "room1") ∧
      mapGet (runOps scenarioOps).server.messages "room1" 0 = 1 := by decide

/-- Claim C8: in every state reachable by any sequence of subscribe, hangup
and broadcast operations, a queue identity occurs in at most one channel's
subscriber list (`countP` over registry entries) and at most once within
any single list. -/
theorem c8_queue_uniqueness (ops : List Op) (q : Nat) :
    (runOps ops).server.listeners.countP (fun p => decide (q ∈ p.2)) ≤ 1 ∧
      ∀ p ∈ (runOps ops).server.listeners, p.2.count q ≤ 1 := by
  have hsum : countQ (runOps ops).server q ≤ 1 := (qinv_runOps ops).1 q
  exact ⟨le_trans (countP_mem_le_sum _ q) hsum,
    fun p hp => le_trans (count_mem_le_sum _ q p hp) hsum⟩

/-- Claim C9: when the WebSocket upgrade fails, `handleWebSocket` returns
before `server.listen` runs: the registry is exactly the one before the
request — no queue is registered, no channel entry is created, no counter
changes — and no queue was allocated to the handler. -/
theorem c9_upgrade_failure_no_side_effects (s : Server) (name : String) (fresh : Nat) :
    handleWebSocketStart s name false fresh = (s, none) ∧
      (∀ n, mapGet (handleWebSocketStart s name false fresh).1.listeners n [] =
        mapGet s.listeners n []) ∧
      (∀ n, mapGet (handleWebSocketStart s name false fresh).1.messages n 0 =
        mapGet s.messages n 0) ∧
      (handleWebSocketStart s name false fresh).1.channelsList = s.channelsList :=
  ⟨rfl, fun _ => rfl, fun _ => rfl, rfl⟩

/-- Claim C10: `broadcast`'s registry mutation touches only the message
counter of its own channel: every subscriber list is left untouched, the
counter of channel `c` goes up by one, and the counter of any other
channel `n` is unchanged. -/
theorem c10_broadcast_frame (s : Server) (c n : String) (h : n ≠ c) :
    (s.broadcastReg c).listeners = s.listeners ∧
      mapGet (s.broadcastReg c).messages c 0 = mapGet s.messages c 0 + 1 ∧
      mapGet (s.broadcastReg c).messages n 0 = mapGet s.messages n 0 :=
  ⟨rfl, mapGet_mapSet_self s.messages c _ 0, mapGet_mapSet_ne s.messages c n _ 0 h⟩

/-- Witness for C10 on the fresh server with channels `"b"` (broadcast
target) and `"a"` (frame-checked bystander). -/
theorem c10_broadcast_frame_witness :
    ("a" : String) ≠ "b" ∧
      ((newServer.broadcastReg "b").listeners = newServer.listeners ∧
        mapGet (newServer.broadcastReg "b").messages "b" 0 =
          mapGet newServer.messages "b" 0 + 1 ∧
        mapGet (newServer.broadcastReg "b").messages "a" 0 =
          mapGet newServer.messages "a" 0) :=
  ⟨by decide, c10_broadcast_frame newServer "b" "a" (by decide)⟩

end Ventilo
